import Mathlib

/-!
Verification of the field-level encryption and encrypted backup/restore
subsystem of the `impact` repository.

The embedding follows the Python sources:
  * `execution/active/backup_database.py` — key manager, backup
    encryptor/decryptor (`get_or_create_encryption_key`, `encrypt_backup`,
    `decrypt_backup`);
  * `execution/active/migrate_to_encrypted_fields.py` — field migration;
  * `execution/migrations/add_searchable_hashes.py` — search-hash migration;
  * `backend/app/routes/patients.py` — patient search routes;
  * `execution/encrypt_all_patient_fields.py` — bulk field encryption.

Third-party library primitives (PBKDF2, SHA-256, base64 from the
`cryptography` / `hashlib` packages) are taken as parameters of the model
(the `CryptoPrims` structure); the Fernet authenticated cipher is modelled
as an ideal AEAD over a symbolic token type.  Functions of the repository's
own module `backend/app/utils/encryption.py`, which is referenced by the
migration scripts and routes but is not present in the source tree, are
modelled from the specification and marked as such in their doc comments.
-/

/-- Byte strings, as lists of naturals. -/
abbrev Bytes := List Nat

/-- A backup directory, flattened to a list of (relative path, file text)
pairs, as produced by `backup_with_pymongo` plus `create_manifest`. -/
abbrev BDir := List (String × String)

/-- Contents of a file on disk.  A Fernet token is kept symbolic: it
records the key it was produced under, the random nonce, and the plaintext;
`fernetDecrypt` recovers the plaintext exactly when the keys agree, which
models authenticated encryption (wrong key, truncation or raw non-token
bytes all fail authentication). -/
inductive FData where
  | text (s : String)
  | bytes (b : Bytes)
  | tarball (d : BDir)
  | fernetTok (key : Bytes) (nonce : Nat) (plain : FData)
deriving DecidableEq, Repr

/-- `Fernet(key).encrypt(m)`: authenticated encryption with a fresh nonce. -/
def fernetEncrypt (key : Bytes) (nonce : Nat) (m : FData) : FData :=
  .fernetTok key nonce m

/-- `Fernet(key).decrypt(ct)`: returns the plaintext iff `ct` is a token
produced under the same key; raises (here: `none`) otherwise. -/
def fernetDecrypt (key : Bytes) : FData → Option FData
  | .fernetTok k _ m => if k = key then some m else none
  | _ => none

/-- The third-party cryptographic primitives used by
`backup_database.py`: `PBKDF2HMAC(SHA256, length, salt, iterations)`,
`base64.urlsafe_b64encode` and `hashlib.sha256(...).hexdigest()`.  The
theorems below hold for every choice of these functions. -/
structure CryptoPrims where
  pbkdf2Sha256 : Bytes → Bytes → Nat → Nat → Bytes
  urlsafeB64 : Bytes → Bytes
  sha256hex : FData → String

/-- A concrete instantiation of the primitives, used only to evaluate the
model on closed inputs. -/
def testPrims : CryptoPrims where
  pbkdf2Sha256 := fun password salt iters len => password ++ salt ++ [iters, len]
  urlsafeB64 := fun b => 64 :: b
  sha256hex := fun f => toString (repr f)

/-- The two key-material files `/root/.backup-encryption-key` and
`/root/.backup-encryption-salt`; `none` means the file does not exist. -/
structure KeyFS where
  keyFile : Option Bytes
  saltFile : Option Bytes
deriving DecidableEq, Repr

/-- `get_or_create_encryption_key` (backup_database.py lines 162–208).
If both key-material files exist their contents are read; otherwise a
fresh master secret (`Fernet.generate_key()`, modelled by `rngPassword`)
and a fresh salt (`os.urandom(16)`, modelled by `rngSalt`) are generated
and both files written.  The data-encryption key is then derived with
PBKDF2-HMAC-SHA256, 100000 iterations, 32-byte output; line 203 builds a
throwaway Fernet from one further random key (`rngThrowaway`) which is
immediately discarded; the returned cipher is keyed by the urlsafe-base64
encoding of the derived key.  The result is that Fernet key together with
the updated file state. -/
def get_or_create_encryption_key (prims : CryptoPrims) (fs : KeyFS)
    (rngPassword rngSalt rngThrowaway : Bytes) : Bytes × KeyFS :=
  let (password, salt, fs') :=
    match fs.keyFile, fs.saltFile with
    | some p, some s => (p, s, fs)
    | _, _ =>
        (rngPassword, rngSalt,
         { keyFile := some rngPassword, saltFile := some rngSalt })
  let key := prims.pbkdf2Sha256 password salt 100000 32
  let _throwaway := fernetEncrypt rngThrowaway  -- Fernet(Fernet.generate_key()), unused
  let fernet_key := prims.urlsafeB64 key
  (fernet_key, fs')

/-- `get_or_create_encryption_key` with the dead intermediate step of
line 203 (`fernet = Fernet(Fernet.generate_key())`) removed; used to state
the refinement claim about that step. -/
def get_or_create_encryption_key_direct (prims : CryptoPrims) (fs : KeyFS)
    (rngPassword rngSalt : Bytes) : Bytes × KeyFS :=
  let (password, salt, fs') :=
    match fs.keyFile, fs.saltFile with
    | some p, some s => (p, s, fs)
    | _, _ =>
        (rngPassword, rngSalt,
         { keyFile := some rngPassword, saltFile := some rngSalt })
  let key := prims.pbkdf2Sha256 password salt 100000 32
  let fernet_key := prims.urlsafeB64 key
  (fernet_key, fs')

/-- A file path, split into the containing directory and the file name;
`tarball_path = encrypted_path.parent / encrypted_path.name.replace(".enc", "")`
makes the decrypted tarball a sibling of the encrypted artifact. -/
structure FPath where
  parent : String
  name : String
deriving DecidableEq, Repr

/-- The slice of the local filesystem touched by the backup pipeline:
the two key-material files, the expanded plaintext backup directory, the
plaintext tarball, the encrypted artifact, its checksum file, the manifest
copy, and the directory produced by extraction during restore. -/
structure BackupFS where
  keyFile : Option Bytes
  saltFile : Option Bytes
  backupDir : Option BDir
  tarball : Option FData
  encFile : Option FData
  checksumFile : Option String
  manifestCopy : Option String
  extracted : Option BDir
deriving DecidableEq, Repr

/-- Observable filesystem events of `encrypt_backup`, in source order. -/
inductive BEvent where
  | writeTar
  | writeEnc
  | writeChecksum
  | copyManifest
  | unlinkTar
  | rmtreeBackupDir
deriving DecidableEq, Repr

/-- Observable filesystem events of `decrypt_backup`. -/
inductive DEvent where
  | writeTarball
  | extractAll
  | unlinkTarball
deriving DecidableEq, Repr

/-- Abort outcomes of `decrypt_backup`: `exitOne` is the single
`sys.exit(1)` handler of lines 293–301 (one fixed message listing the
three candidate causes); `ioError` models a failed `open`; `extractError`
models an uncaught exception from `tarfile.extractall`. -/
inductive DecryptAbort where
  | exitOne
  | ioError
  | extractError
deriving DecidableEq, Repr

/-- Look a file up inside a backup directory. -/
def dirLookup (d : BDir) (name : String) : Option String :=
  (d.find? (fun p => p.1 = name)).map (fun p => p.2)

/-- `encrypt_backup` (backup_database.py lines 211–267).  Obtains the
cipher via `get_or_create_encryption_key`, tars the backup directory,
encrypts the tarball with a fresh Fernet nonce, writes the encrypted
artifact, writes the checksum file `"<sha256 of ciphertext>  <name>\n"`,
copies `manifest.json` next to the artifact when present, and only then
unlinks the tarball and removes the backup directory.  Returns the final
filesystem, the artifact name, the hex digest, and the event trace;
`none` when the backup directory does not exist (the `tarfile.add` would
raise). -/
def encrypt_backup (prims : CryptoPrims) (fs : BackupFS) (dirName : String)
    (rngPassword rngSalt rngThrowaway : Bytes) (encNonce : Nat) :
    Option (BackupFS × String × String × List BEvent) :=
  match fs.backupDir with
  | none => none
  | some dir =>
    let (fernetKey, kfs) :=
      get_or_create_encryption_key prims ⟨fs.keyFile, fs.saltFile⟩
        rngPassword rngSalt rngThrowaway
    let plaintext : FData := .tarball dir
    let fs1 := { fs with keyFile := kfs.keyFile, saltFile := kfs.saltFile,
                         tarball := some plaintext }
    let ciphertext := fernetEncrypt fernetKey encNonce plaintext
    let encName := dirName ++ ".tar.gz.enc"
    let fs2 := { fs1 with encFile := some ciphertext }
    let digest := prims.sha256hex ciphertext
    let fs3 := { fs2 with
                 checksumFile := some (digest ++ "  " ++ encName ++ "\n") }
    let (fs4, manifestEvents) :=
      match dirLookup dir "manifest.json" with
      | some m => ({ fs3 with manifestCopy := some m }, [BEvent.copyManifest])
      | none => (fs3, [])
    let fs5 := { fs4 with tarball := none, backupDir := none }
    some (fs5, encName, digest,
      [BEvent.writeTar, BEvent.writeEnc, BEvent.writeChecksum]
        ++ manifestEvents ++ [BEvent.unlinkTar, BEvent.rmtreeBackupDir])

/-- The path of the decrypted tarball written by `decrypt_backup`
(line 305): same directory as the encrypted artifact, name with `.enc`
removed. -/
def tarballPathOf (encPath : FPath) : FPath :=
  ⟨encPath.parent, encPath.name.replace ".enc" ""⟩

/-- `decrypt_backup` (backup_database.py lines 270–326).  Reads the
encrypted file, obtains the cipher via `get_or_create_encryption_key`,
decrypts; on any decryption failure prints one fixed message listing the
three possible causes and exits with status 1 (`exitOne`), leaving the
filesystem as updated so far.  On success it writes the full plaintext
tarball as a sibling of the encrypted file, extracts it, and unlinks the
tarball only after extraction; an extraction failure propagates
(`extractError`) with the tarball still on disk.  Returns the final
filesystem together with either the abort cause or the decrypted
directory path, the written tarball path and the event trace. -/
def decrypt_backup (prims : CryptoPrims) (fs : BackupFS) (encPath : FPath)
    (rngPassword rngSalt rngThrowaway : Bytes) :
    BackupFS × Except DecryptAbort (FPath × FPath × List DEvent) :=
  match fs.encFile with
  | none => (fs, .error .ioError)
  | some ciphertext =>
    let (fernetKey, kfs) :=
      get_or_create_encryption_key prims ⟨fs.keyFile, fs.saltFile⟩
        rngPassword rngSalt rngThrowaway
    let fs0 := { fs with keyFile := kfs.keyFile, saltFile := kfs.saltFile }
    match fernetDecrypt fernetKey ciphertext with
    | none => (fs0, .error .exitOne)
    | some plaintext =>
      let tarPath := tarballPathOf encPath
      let fs1 := { fs0 with tarball := some plaintext }
      match plaintext with
      | .tarball d =>
        let fs2 := { fs1 with extracted := some d }
        let fs3 := { fs2 with tarball := none }
        let decryptedName := encPath.name.replace ".tar.gz.enc" ""
        (fs3, .ok (⟨encPath.parent, decryptedName⟩, tarPath,
          [DEvent.writeTarball, DEvent.extractAll, DEvent.unlinkTarball]))
      | _ => (fs1, .error .extractError)

/-- A MongoDB value of one sensitive patient field.  `venc nonce plain` is
the marker-bearing authenticated ciphertext string produced by the
`encrypt_field` of `backend/app/utils/encryption.py`.  Modelled from the
spec: that module is not in the source tree; per the spec an encrypted
value is a string carrying a fixed marker followed by an opaque
authenticated encoding of nonce, ciphertext and tag, a value either bears
the marker or does not, and decryption recovers the plaintext. -/
inductive FieldVal where
  | vnull
  | vstr (s : String)
  | venc (nonce : Nat) (plain : String)
deriving DecidableEq, Repr

/-- Modelled from the spec: `is_encrypted(value)` of the missing module
`backend/app/utils/encryption.py` is true iff the value starts with the
marker token. -/
def is_encrypted : FieldVal → Bool
  | .venc _ _ => true
  | _ => false

/-- Modelled from the spec: `encrypt_field(field_name, plaintext)` of the
missing module produces a marker-bearing authenticated ciphertext with a
fresh random nonce. -/
def encrypt_field (nonce : Nat) (plaintext : String) : FieldVal :=
  .venc nonce plaintext

/-- Modelled from the spec: `decrypt_field` of the missing module strips
the marker and recovers the plaintext of a marker-bearing value; a
plaintext value is returned unchanged by callers that check
`is_encrypted` first. -/
def decrypt_field : FieldVal → String
  | .venc _ p => p
  | .vstr s => s
  | .vnull => ""

/-- Python truthiness of a field value (`if doc[field]:`): `None` and the
empty string are falsy. -/
def truthy : FieldVal → Bool
  | .vnull => false
  | .vstr s => s ≠ ""
  | .venc _ _ => true

/-- The "needs work" selection query of `migrate_field`
(migrate_to_encrypted_fields.py lines 86–93):
`{field: {'$exists': True, '$ne': None, '$ne': '', '$not': regex ^marker}}`.
The dict literal repeats the key `'$ne'`, so the `'$ne': None` entry is
overwritten by `'$ne': ''` and null values do match the query (they exist,
differ from `''`, and do not match the marker regex). -/
def needsWork : Option FieldVal → Bool
  | none => false
  | some .vnull => true
  | some (.vstr s) => s ≠ ""
  | some (.venc _ _) => false

/-- The loop body of `migrate_field` (lines 101–118) on one selected
document: re-check presence and truthiness, then encrypt and update.
Returns the new value and whether an update (one new encryption) was
performed. -/
def migrateDoc (nonce : Nat) (v : Option FieldVal) : Option FieldVal × Bool :=
  if needsWork v then
    match v with
    | some w =>
        if truthy w then (some (encrypt_field nonce (decrypt_field w)), true)
        else (v, false)
    | none => (v, false)
  else (v, false)

/-- `migrate_field` (migrate_to_encrypted_fields.py lines 67–128) over the
patients collection, restricted to one field: each document's value of
that field, `none` when the field is absent.  `rng` supplies the fresh
nonce for each encryption.  Returns the updated collection and the number
of documents encrypted (`processed`). -/
def migrate_field (rng : Nat → Nat) :
    List (Option FieldVal) → List (Option FieldVal) × Nat
  | [] => ([], 0)
  | v :: vs =>
    ((migrateDoc (rng 0) v).1 :: (migrate_field (fun i => rng (i + 1)) vs).1,
     (if (migrateDoc (rng 0) v).2 then 1 else 0)
       + (migrate_field (fun i => rng (i + 1)) vs).2)

/-- The collection state after `migrate_field` is interrupted once `k`
documents have been visited: the first `k` documents are migrated, the
rest untouched. -/
def interruptedRun (rng : Nat → Nat) (docs : List (Option FieldVal))
    (k : Nat) : List (Option FieldVal) :=
  (migrate_field rng (docs.take k)).1 ++ docs.drop k

/-- One patient document as seen by `add_searchable_hashes.py`: the two
identifier fields and their sibling hash fields (`none` = field absent). -/
structure HDoc where
  nhsNumber : Option FieldVal
  nhsHash : Option String
  mrn : Option FieldVal
  mrnHash : Option String
deriving DecidableEq, Repr

/-- Python's `s.replace(" ", "")`: drop every space character. -/
def pyStripSpaces (s : String) : String :=
  String.mk (s.data.filter (fun c => !(c = ' ')))

/-- Python's `s.lower()`, character by character. -/
def pyLower (s : String) : String := String.mk (s.data.map Char.toLower)

/-- Python's `s.upper()`, character by character. -/
def pyUpper (s : String) : String := String.mk (s.data.map Char.toUpper)

/-- Modelled from the spec: `generate_search_hash(field_name, plaintext)`
of the missing module `backend/app/utils/encryption.py` normalizes the
plaintext (strip whitespace, case-fold) and computes a keyed message
digest (HMAC) of the normalized value; `hmac` is that keyed digest. -/
def generate_search_hash (hmac : String → String → String)
    (fieldName plaintext : String) : String :=
  hmac fieldName (pyLower (pyStripSpaces plaintext))

/-- The plaintext of a stored value as used by the hash migration
(add_searchable_hashes.py lines 93–95): decrypt when encrypted, use the
string as-is otherwise. -/
def plainOf (v : FieldVal) : String :=
  if is_encrypted v then decrypt_field v
  else match v with | .vstr s => s | _ => ""

/-- The per-field body shared by the two passes of
`migrate_patient_hashes` (add_searchable_hashes.py lines 86–110 and
128–154) combined with the pass's selection query
`{field: exists, hash field: absent}`: skip falsy values, decrypt when
encrypted, hash, and store the hash when it is truthy.  Returns the new
hash-field value and whether a hash was added. -/
def hashFieldStep (hmac : String → String → String) (fieldName : String)
    (value : Option FieldVal) (hashVal : Option String) :
    Option String × Bool :=
  if value.isSome ∧ hashVal = none then
    match value with
    | some v =>
        if truthy v then
          -- decrypt when encrypted; a plaintext value is used as-is
          let h := generate_search_hash hmac fieldName (plainOf v)
          if h ≠ "" then (some h, true) else (hashVal, false)
        else (hashVal, false)
    | none => (hashVal, false)
  else (hashVal, false)

/-- The per-document body of the NHS-number pass of
`migrate_patient_hashes` (add_searchable_hashes.py lines 78–111). -/
def hashDocNhs (hmac : String → String → String) (d : HDoc) : HDoc × Bool :=
  ({ d with nhsHash := (hashFieldStep hmac "nhs_number" d.nhsNumber d.nhsHash).1 },
   (hashFieldStep hmac "nhs_number" d.nhsNumber d.nhsHash).2)

/-- The per-document body of the MRN pass of `migrate_patient_hashes`
(add_searchable_hashes.py lines 120–155). -/
def hashDocMrn (hmac : String → String → String) (d : HDoc) : HDoc × Bool :=
  ({ d with mrnHash := (hashFieldStep hmac "mrn" d.mrn d.mrnHash).1 },
   (hashFieldStep hmac "mrn" d.mrn d.mrnHash).2)

/-- One pass of `migrate_patient_hashes` over the collection with a
per-document body, counting the updates. -/
def hashPass (body : HDoc → HDoc × Bool) : List HDoc → List HDoc × Nat
  | [] => ([], 0)
  | d :: ds =>
    ((body d).1 :: (hashPass body ds).1,
     (if (body d).2 then 1 else 0) + (hashPass body ds).2)

/-- `migrate_patient_hashes` (add_searchable_hashes.py lines 35–183),
non-dry-run path: the NHS-number pass followed by the MRN pass.  Returns
the updated collection, `nhs_updated` and `mrn_updated`. -/
def migrate_patient_hashes (hmac : String → String → String)
    (docs : List HDoc) : List HDoc × Nat × Nat :=
  ((hashPass (hashDocMrn hmac) (hashPass (hashDocNhs hmac) docs).1).1,
   (hashPass (hashDocNhs hmac) docs).2,
   (hashPass (hashDocMrn hmac) (hashPass (hashDocNhs hmac) docs).1).2)

/-- A stored patient record as inspected by the search routes of
`backend/app/routes/patients.py`: the two sensitive identifier fields
(`none` = field absent from the document). -/
structure RPatient where
  mrn : Option FieldVal
  nhsNumber : Option FieldVal
deriving DecidableEq, Repr

/-- Modelled from the spec: `decrypt_document` of the missing module
`backend/app/utils/encryption.py` returns a copy with every configured
encrypted field that bears the marker replaced by its plaintext, passing
legacy plaintext through unchanged; restricted to the two fields the
search routes inspect. -/
def decrypt_value : FieldVal → FieldVal
  | .venc _ p => .vstr p
  | w => w

/-- Modelled from the spec: see `decrypt_value`. -/
def decrypt_document (p : RPatient) : RPatient :=
  ⟨p.mrn.map decrypt_value, p.nhsNumber.map decrypt_value⟩

/-- `search.replace(" ", "").upper()` (patients.py line 133). -/
def clean_upper (search : String) : String := pyUpper (pyStripSpaces search)

/-- `search.replace(" ", "").lower()` (patients.py line 222). -/
def clean_lower (search : String) : String := pyLower (pyStripSpaces search)

/-- `is_mrn_pattern` (patients.py lines 136–140) on the cleaned,
upper-cased search string: 8+ digits, `IW` + 6 digits, or `C` + 6 digits
+ 2 alphanumerics. -/
def is_mrn_pattern (s : String) : Bool :=
  (s.data.all Char.isDigit && decide (8 ≤ s.length))
    || (s.startsWith "IW" && decide (s.length = 8)
          && (s.data.drop 2).all Char.isDigit)
    || (s.startsWith "C" && decide (s.length = 9)
          && ((s.data.drop 1).take 6).all Char.isDigit
          && ((s.data.drop 7).take 2).all Char.isAlphanum)

/-- Python's substring test `needle in hay`. -/
def pyIn (needle hay : String) : Bool := decide (needle.data <:+: hay.data)

/-- Python's `str()` of a decrypted field value. -/
def pyStrF : FieldVal → String
  | .vstr s => s
  | .vnull => "None"
  | .venc n p => "enc(" ++ toString n ++ "," ++ p ++ ")"

/-- One field test of the encrypted-search filter (patients.py lines
100–102 and 226–231): the decrypted value is truthy and the cleaned
search string occurs in `str(value).replace(" ", "").lower()`. -/
def fieldCheck (clean : String) (v : Option FieldVal) : Bool :=
  match v with
  | some w => truthy w && pyIn clean (pyLower (pyStripSpaces (pyStrF w)))
  | none => false

/-- Whether a stored record is matched by the encrypted-field search:
decrypt the document, then test MRN first, NHS number second. -/
def patientMatches (clean : String) (p : RPatient) : Bool :=
  fieldCheck clean (decrypt_document p).mrn
    || fieldCheck clean (decrypt_document p).nhsNumber

/-- The encrypted-field branch of `count_patients` (patients.py lines
91–105): fetch every record, decrypt each one, and count those whose
decrypted MRN or NHS number contains the cleaned search string.  The
second component is the list of stored records passed to
`decrypt_document`, in loop order. -/
def count_patients_encsearch (clean : String) :
    List RPatient → Nat × List RPatient
  | [] => (0, [])
  | p :: ps =>
    ((if patientMatches clean p then 1 else 0)
       + (count_patients_encsearch clean ps).1,
     p :: (count_patients_encsearch clean ps).2)

/-- The encrypted-field branch of `list_patients` (patients.py lines
196–238): every stored record is decrypted (lines 200–218), the decrypted
records are filtered by the same MRN/NHS substring test (lines 221–235),
and pagination `[skip : skip + limit]` is applied after filtering.
Returns the page and the list of decrypted records (one per stored
record). -/
def list_patients_encsearch (clean : String) (skip limit : Nat)
    (patients : List RPatient) : List RPatient × List RPatient :=
  let decryptedAll := patients.map decrypt_document
  let filtered := decryptedAll.filter
    (fun d => fieldCheck clean d.mrn || fieldCheck clean d.nhsNumber)
  ((filtered.drop skip).take limit, decryptedAll)

/-- A MongoDB value of one sensitive field as seen by
`encrypt_all_patient_fields.py`; unlike the migration of string fields,
a stored value may be a non-string scalar such as a date. -/
inductive MongoVal where
  | mnull
  | mstr (s : String)
  | mdate (y m d : Nat)
  | menc (nonce : Nat) (plain : String)
deriving DecidableEq, Repr

/-- Python's `str()` on a stored value; `repr`-like but injective on the
constructors used here. -/
def pyStr : MongoVal → String
  | .mnull => "None"
  | .mstr s => s
  | .mdate y m d => toString y ++ "-" ++ toString m ++ "-" ++ toString d
  | .menc n p => "enc(" ++ toString n ++ "," ++ p ++ ")"

/-- Modelled from the spec: `is_encrypted` of the missing module is true
iff the value is a marker-bearing string. -/
def is_encrypted_mv : MongoVal → Bool
  | .menc _ _ => true
  | _ => false

/-- Modelled from the spec: `encrypt_field` of the missing module on the
`str()`-converted plaintext. -/
def encrypt_field_mv (nonce : Nat) (plaintext : String) : MongoVal :=
  .menc nonce plaintext

/-- Modelled from the spec: `decrypt_field` of the missing module
recovers the plaintext string of a marker-bearing value. -/
def decrypt_field_mv : MongoVal → String
  | .menc _ p => p
  | .mstr s => s
  | _ => ""

/-- A document (or sub-document) as a field-name/value association
list. -/
abbrev MDoc := List (String × MongoVal)

/-- `doc.get(field)`: first binding of the field, `none` when absent. -/
def mongoGet (doc : MDoc) (f : String) : Option MongoVal :=
  (doc.find? (fun kv => kv.1 = f)).map (fun kv => kv.2)

/-- The top-level sensitive fields checked by
`encrypt_all_patient_fields.py` (line 38). -/
def patient_encrypted_fields : List String :=
  ["mrn", "nhs_number", "hospital_number"]

/-- The demographics sensitive fields checked by
`encrypt_all_patient_fields.py` (line 41). -/
def demographics_encrypted_fields : List String :=
  ["first_name", "last_name", "date_of_birth", "deceased_date", "postcode"]

/-- The `updates` dict built by the field loop of
`encrypt_all_patient_fields.py` (lines 48–53 and 59–64): for each listed
field whose value is present, non-null and not already encrypted, map it
to `encrypt_field(field, str(value))` with a fresh nonce. -/
def fieldUpdates (rng : Nat → Nat) (doc : MDoc) : List String → MDoc
  | [] => []
  | f :: fs =>
    match mongoGet doc f with
    | some v =>
        if v ≠ .mnull ∧ is_encrypted_mv v = false then
          (f, encrypt_field_mv (rng 0) (pyStr v))
            :: fieldUpdates (fun i => rng (i + 1)) doc fs
        else fieldUpdates (fun i => rng (i + 1)) doc fs
    | none => fieldUpdates (fun i => rng (i + 1)) doc fs

/-- `update_one({'$set': updates})` restricted to keys read from the
document itself: replace the value of every key that occurs in
`updates`. -/
def applySet (doc updates : MDoc) : MDoc :=
  doc.map (fun kv =>
    match mongoGet updates kv.1 with
    | some w => (kv.1, w)
    | none => kv)

/-- A patient document of `encrypt_all_patient_fields.py`: top-level
fields plus the optional `demographics` sub-document. -/
structure PDoc where
  top : MDoc
  demographics : Option MDoc
deriving DecidableEq, Repr

/-- The per-patient body of `encrypt_patient_fields`
(encrypt_all_patient_fields.py lines 43–77): build the updates for the
top-level sensitive fields and, when the demographics sub-document is
present and truthy, for its sensitive fields, then apply them. -/
def encrypt_patient_fields_doc (rng rngDemo : Nat → Nat) (p : PDoc) : PDoc :=
  let updates := fieldUpdates rng p.top patient_encrypted_fields
  let demoUpdates :=
    match p.demographics with
    | some demo =>
        if demo = [] then []
        else fieldUpdates rngDemo demo demographics_encrypted_fields
    | none => []
  { top := applySet p.top updates,
    demographics := p.demographics.map (fun demo => applySet demo demoUpdates) }

lemma get_or_create_key_both (prims : CryptoPrims) (fs : KeyFS)
    (p s rp rs rt : Bytes) (h1 : fs.keyFile = some p)
    (h2 : fs.saltFile = some s) :
    get_or_create_encryption_key prims fs rp rs rt
      = (prims.urlsafeB64 (prims.pbkdf2Sha256 p s 100000 32), fs) := by
  cases fs with
  | mk kf sf =>
    obtain rfl : kf = some p := h1
    obtain rfl : sf = some s := h2
    rfl

lemma get_or_create_key_gen (prims : CryptoPrims) (fs : KeyFS)
    (rp rs rt : Bytes) (h : fs.keyFile = none ∨ fs.saltFile = none) :
    get_or_create_encryption_key prims fs rp rs rt
      = (prims.urlsafeB64 (prims.pbkdf2Sha256 rp rs 100000 32),
         ⟨some rp, some rs⟩) := by
  cases fs with
  | mk kf sf =>
    rcases h with h | h
    · obtain rfl : kf = none := h
      cases sf <;> rfl
    · obtain rfl : sf = none := h
      cases kf <;> rfl

/-- C1 counterexample: with the master-secret file present (`[1, 2]`) and
the salt file absent, `get_or_create_encryption_key` does not fail: it
generates a fresh secret (`[3]`) and salt (`[4]`), overwrites both files
with them, and returns a key derived from the fresh material. -/
theorem c1_counterexample :
    get_or_create_encryption_key testPrims ⟨some [1, 2], none⟩ [3] [4] [5]
      = ([64, 3, 4, 100000, 32], ⟨some [3], some [4]⟩)
    ∧ (⟨some [1, 2], none⟩ : KeyFS).keyFile.isSome = true
    ∧ (⟨some [1, 2], none⟩ : KeyFS).saltFile = none := ⟨rfl, rfl, rfl⟩

/-- C1 (amended): if exactly one of the two key-material files exists,
`get_or_create_encryption_key` does not raise a configuration error —
because the existence check is a conjunction it takes the generate
branch, silently creating a fresh master secret and salt, overwriting
both files, and returning a cipher keyed from the fresh material. -/
theorem c1_single_file_regenerates (prims : CryptoPrims) (fs : KeyFS)
    (rp rs rt : Bytes)
    (h : (fs.keyFile ≠ none ∧ fs.saltFile = none)
          ∨ (fs.keyFile = none ∧ fs.saltFile ≠ none)) :
    get_or_create_encryption_key prims fs rp rs rt
      = (prims.urlsafeB64 (prims.pbkdf2Sha256 rp rs 100000 32),
         ⟨some rp, some rs⟩) := by
  apply get_or_create_key_gen
  rcases h with ⟨_, h2⟩ | ⟨h1, _⟩
  · exact Or.inr h2
  · exact Or.inl h1

/-- C1 witness: the amended theorem at the concrete counterexample
state. -/
theorem c1_single_file_regenerates_witness :
    get_or_create_encryption_key testPrims ⟨some [1, 2], none⟩ [3] [4] [5]
      = (testPrims.urlsafeB64 (testPrims.pbkdf2Sha256 [3] [4] 100000 32),
         ⟨some [3], some [4]⟩) :=
  c1_single_file_regenerates testPrims ⟨some [1, 2], none⟩ [3] [4] [5]
    (Or.inl ⟨by decide, rfl⟩)

/-- C7: key derivation is a pure function of the key material.  With both
key-material files present, `get_or_create_encryption_key` returns the
PBKDF2-HMAC-SHA256 derivation (100000 iterations, 32-byte output) of the
master secret and salt, base64-encoded; any two invocations — whatever
randomness they draw — return the identical data-encryption key, and the
key files are left untouched. -/
theorem c7_key_derivation_deterministic (prims : CryptoPrims) (fs : KeyFS)
    (p s rp rs rt rp' rs' rt' : Bytes) (h1 : fs.keyFile = some p)
    (h2 : fs.saltFile = some s) :
    (get_or_create_encryption_key prims fs rp rs rt).1
        = prims.urlsafeB64 (prims.pbkdf2Sha256 p s 100000 32)
    ∧ (get_or_create_encryption_key prims fs rp rs rt).1
        = (get_or_create_encryption_key prims fs rp' rs' rt').1
    ∧ (get_or_create_encryption_key prims fs rp rs rt).2 = fs := by
  rw [get_or_create_key_both prims fs p s rp rs rt h1 h2,
      get_or_create_key_both prims fs p s rp' rs' rt' h1 h2]
  exact ⟨rfl, rfl, rfl⟩

/-- C7 witness: two runs over the same concrete key files, drawing
different randomness, produce the identical cipher key. -/
theorem c7_key_derivation_deterministic_witness :
    (get_or_create_encryption_key testPrims ⟨some [1], some [2]⟩
        [3] [4] [5]).1
      = testPrims.urlsafeB64 (testPrims.pbkdf2Sha256 [1] [2] 100000 32)
    ∧ (get_or_create_encryption_key testPrims ⟨some [1], some [2]⟩
        [3] [4] [5]).1
      = (get_or_create_encryption_key testPrims ⟨some [1], some [2]⟩
          [6] [7] [8]).1
    ∧ (get_or_create_encryption_key testPrims ⟨some [1], some [2]⟩
        [3] [4] [5]).2 = ⟨some [1], some [2]⟩ :=
  c7_key_derivation_deterministic testPrims ⟨some [1], some [2]⟩
    [1] [2] [3] [4] [5] [6] [7] [8] rfl rfl

/-- C8: the throwaway cipher built at line 203 has no effect on the value
returned by `get_or_create_encryption_key`: the function is extensionally
equal to the version with the intermediate step removed, and its result
does not depend on the randomness the dead step consumes. -/
theorem c8_throwaway_cipher_dead (prims : CryptoPrims) (fs : KeyFS)
    (rp rs rt rt' : Bytes) :
    get_or_create_encryption_key prims fs rp rs rt
        = get_or_create_encryption_key_direct prims fs rp rs
    ∧ get_or_create_encryption_key prims fs rp rs rt
        = get_or_create_encryption_key prims fs rp rs rt' :=
  ⟨rfl, rfl⟩

/-- C3 counterexample: a wrong-key token and a raw never-encrypted file
both abort `decrypt_backup` with the *same* `sys.exit(1)` outcome — the
abort does not distinguish the causes — while the filesystem is left
unchanged in both runs.  The derived key is `[64, 1, 2, 100000, 32]`, so
the token key `[0]` is a wrong key. -/
theorem c3_counterexample :
    decrypt_backup testPrims
        ⟨some [1], some [2], none, none,
         some (.fernetTok [0] 0 (.text "t")), none, none, none⟩
        ⟨"/backups", "b.tar.gz.enc"⟩ [0] [0] [0]
      = (⟨some [1], some [2], none, none,
          some (.fernetTok [0] 0 (.text "t")), none, none, none⟩,
         Except.error DecryptAbort.exitOne)
    ∧ decrypt_backup testPrims
        ⟨some [1], some [2], none, none,
         some (.bytes [9, 9, 9]), none, none, none⟩
        ⟨"/backups", "b.tar.gz.enc"⟩ [0] [0] [0]
      = (⟨some [1], some [2], none, none,
          some (.bytes [9, 9, 9]), none, none, none⟩,
         Except.error DecryptAbort.exitOne) := by
  constructor <;> rfl

/-- C3 (amended): when the key-material files are present and
authenticated decryption of the input fails — whether from a wrong key, a
corrupted file, or a file that was never encrypted — `decrypt_backup`
aborts through the single `sys.exit(1)` handler, whose fixed message
lists all three candidate causes without distinguishing which occurred,
and leaves the filesystem unchanged: no partially-extracted directory and
no other new file. -/
theorem c3_failure_undistinguished (prims : CryptoPrims) (fs : BackupFS)
    (encPath : FPath) (ct : FData) (p s rp rs rt : Bytes)
    (h1 : fs.keyFile = some p) (h2 : fs.saltFile = some s)
    (hct : fs.encFile = some ct)
    (hfail : fernetDecrypt
        (prims.urlsafeB64 (prims.pbkdf2Sha256 p s 100000 32)) ct = none) :
    decrypt_backup prims fs encPath rp rs rt
      = (fs, Except.error DecryptAbort.exitOne) := by
  cases fs with
  | mk kf sf bd tb ef cf mc ex =>
    obtain rfl : kf = some p := h1
    obtain rfl : sf = some s := h2
    obtain rfl : ef = some ct := hct
    simp only [decrypt_backup,
      get_or_create_key_both prims ⟨some p, some s⟩ p s rp rs rt rfl rfl]
    rw [hfail]

/-- C3 witness: the amended theorem at the wrong-key concrete input. -/
theorem c3_failure_undistinguished_witness :
    decrypt_backup testPrims
        ⟨some [1], some [2], none, none,
         some (.fernetTok [0] 1 (.text "t")), none, none, none⟩
        ⟨"/backups", "b.tar.gz.enc"⟩ [3] [4] [5]
      = (⟨some [1], some [2], none, none,
          some (.fernetTok [0] 1 (.text "t")), none, none, none⟩,
         Except.error DecryptAbort.exitOne) :=
  c3_failure_undistinguished testPrims _ _ _ [1] [2] [3] [4] [5]
    rfl rfl rfl (by decide)

/-- The tarball lifecycle ordering inside a `decrypt_backup` event trace:
the tarball write comes strictly before extraction, and the unlink comes
strictly after extraction. -/
def tarballLifecycleOrdered (tr : List DEvent) : Bool :=
  decide (∀ i j : Fin tr.length,
    (tr.get i = DEvent.writeTarball → tr.get j = DEvent.extractAll →
        (i : Nat) < (j : Nat))
    ∧ (tr.get i = DEvent.unlinkTarball → tr.get j = DEvent.extractAll →
        (j : Nat) < (i : Nat)))

/-- C9: once decryption succeeds, `decrypt_backup` writes the full
plaintext archive as a sibling of the encrypted artifact
(`encrypted_path.parent / name-without-.enc`) before extraction begins
and unlinks it only after extraction completes; when extraction fails the
plaintext tarball remains on disk. -/
theorem c9_tarball_lifecycle (prims : CryptoPrims) (fs : BackupFS)
    (encPath : FPath) (ct plain : FData) (p s rp rs rt : Bytes)
    (h1 : fs.keyFile = some p) (h2 : fs.saltFile = some s)
    (hct : fs.encFile = some ct)
    (hdec : fernetDecrypt
        (prims.urlsafeB64 (prims.pbkdf2Sha256 p s 100000 32)) ct
      = some plain) :
    (∀ outPath tarPath tr,
        (decrypt_backup prims fs encPath rp rs rt).2
            = Except.ok (outPath, tarPath, tr) →
        tarPath = tarballPathOf encPath
        ∧ tarPath.parent = encPath.parent
        ∧ tarballLifecycleOrdered tr = true
        ∧ (decrypt_backup prims fs encPath rp rs rt).1.tarball = none)
    ∧ (∀ e,
        (decrypt_backup prims fs encPath rp rs rt).2 = Except.error e →
        (decrypt_backup prims fs encPath rp rs rt).1.tarball
          = some plain) := by
  cases fs with
  | mk kf sf bd tb ef cf mc ex =>
    obtain rfl : kf = some p := h1
    obtain rfl : sf = some s := h2
    obtain rfl : ef = some ct := hct
    simp only [decrypt_backup,
      get_or_create_key_both prims ⟨some p, some s⟩ p s rp rs rt rfl rfl]
    rw [hdec]
    cases plain with
    | tarball d =>
        refine ⟨fun outPath tarPath tr hok => ?_, fun e herr => ?_⟩
        · obtain ⟨rfl, rfl, rfl⟩ :
              outPath = (⟨encPath.parent,
                  encPath.name.replace ".tar.gz.enc" ""⟩ : FPath)
              ∧ tarPath = tarballPathOf encPath
              ∧ tr = [DEvent.writeTarball, DEvent.extractAll,
                      DEvent.unlinkTarball] := by
            have := hok
            simp only [Except.ok.injEq, Prod.mk.injEq] at this
            exact ⟨this.1.symm, this.2.1.symm, this.2.2.symm⟩
          exact ⟨rfl, rfl, by decide, rfl⟩
        · exact absurd herr (by simp)
    | text s' =>
        refine ⟨fun outPath tarPath tr hok => absurd hok (by simp),
                fun e herr => rfl⟩
    | bytes b =>
        refine ⟨fun outPath tarPath tr hok => absurd hok (by simp),
                fun e herr => rfl⟩
    | fernetTok k n m =>
        refine ⟨fun outPath tarPath tr hok => absurd hok (by simp),
                fun e herr => rfl⟩

/-- C9 witness: a successful restore orders the tarball lifecycle
correctly and removes the tarball; a decrypt-success/extract-failure run
(the plaintext is not a tar archive) leaves the plaintext tarball on
disk. -/
theorem c9_tarball_lifecycle_witness :
    (tarballPathOf ⟨"/backups", "b.tar.gz.enc"⟩).parent = "/backups"
    ∧ tarballLifecycleOrdered
        [DEvent.writeTarball, DEvent.extractAll, DEvent.unlinkTarball]
      = true
    ∧ (decrypt_backup testPrims
        ⟨some [1], some [2], none, none,
         some (.fernetTok [64, 1, 2, 100000, 32] 0 (.tarball [("f", "x")])),
         none, none, none⟩
        ⟨"/backups", "b.tar.gz.enc"⟩ [3] [4] [5]).1.tarball = none
    ∧ (decrypt_backup testPrims
        ⟨some [1], some [2], none, none,
         some (.fernetTok [64, 1, 2, 100000, 32] 0 (.text "notatar")),
         none, none, none⟩
        ⟨"/backups", "b.tar.gz.enc"⟩ [3] [4] [5]).1.tarball
      = some (.text "notatar") := by
  have hS := c9_tarball_lifecycle testPrims
    ⟨some [1], some [2], none, none,
     some (.fernetTok [64, 1, 2, 100000, 32] 0 (.tarball [("f", "x")])),
     none, none, none⟩
    ⟨"/backups", "b.tar.gz.enc"⟩ _ (.tarball [("f", "x")]) [1] [2] [3] [4] [5]
    rfl rfl rfl (by decide)
  have hF := c9_tarball_lifecycle testPrims
    ⟨some [1], some [2], none, none,
     some (.fernetTok [64, 1, 2, 100000, 32] 0 (.text "notatar")),
     none, none, none⟩
    ⟨"/backups", "b.tar.gz.enc"⟩ _ (.text "notatar") [1] [2] [3] [4] [5]
    rfl rfl rfl (by decide)
  obtain ⟨hok, -⟩ := hS
  obtain ⟨-, herr⟩ := hF
  have h1 := hok _ _ _ rfl
  have h2 := herr DecryptAbort.extractError rfl
  exact ⟨h1.2.1, h1.2.2.1, h1.2.2.2, h2⟩

/-- Ordering of the `encrypt_backup` event trace: every deletion of
plaintext (tarball unlink, backup-directory removal) comes strictly after
every write of the encrypted artifact and of the checksum file. -/
def deletesAfterArtifacts (tr : List BEvent) : Bool :=
  decide (∀ i j : Fin tr.length,
    (tr.get i = BEvent.unlinkTar ∨ tr.get i = BEvent.rmtreeBackupDir) →
    (tr.get j = BEvent.writeEnc ∨ tr.get j = BEvent.writeChecksum) →
    (j : Nat) < (i : Nat))

/-- C6: in every execution of `encrypt_backup`, the plaintext tarball and
the expanded backup directory are deleted only after both the encrypted
artifact and the checksum file have been written — every deletion event
follows both write events in the trace, and the final state has the two
artifacts present and the plaintext gone. -/
theorem c6_plaintext_deleted_last (prims : CryptoPrims) (fs : BackupFS)
    (dirName : String) (rp rs rt : Bytes) (nonce : Nat)
    (fs1 : BackupFS) (encName digest : String) (tr : List BEvent)
    (henc : encrypt_backup prims fs dirName rp rs rt nonce
        = some (fs1, encName, digest, tr)) :
    deletesAfterArtifacts tr = true
    ∧ fs1.encFile.isSome = true
    ∧ fs1.checksumFile.isSome = true
    ∧ fs1.tarball = none
    ∧ fs1.backupDir = none := by
  rcases hbd : fs.backupDir with _ | dir
  · simp only [encrypt_backup, hbd] at henc
    exact absurd henc (by simp)
  · simp only [encrypt_backup, hbd] at henc
    rcases hm : dirLookup dir "manifest.json" with _ | m <;>
      rw [hm] at henc <;>
      simp only [Option.some.injEq, Prod.mk.injEq] at henc <;>
      obtain ⟨rfl, -, -, rfl⟩ := henc <;>
      exact ⟨by decide, rfl, rfl, rfl, rfl⟩

/-- C6 witness: the ordering and final-state facts at a concrete backup
run. -/
theorem c6_plaintext_deleted_last_witness :
    deletesAfterArtifacts
        [BEvent.writeTar, BEvent.writeEnc, BEvent.writeChecksum,
         BEvent.copyManifest, BEvent.unlinkTar, BEvent.rmtreeBackupDir]
      = true
    ∧ (encrypt_backup testPrims
        ⟨some [1], some [2], some [("manifest.json", "m")],
         none, none, none, none, none⟩
        "b" [3] [4] [5] 0).isSome = true := by
  refine ⟨?_, by decide⟩
  have h := c6_plaintext_deleted_last testPrims
    ⟨some [1], some [2], some [("manifest.json", "m")],
     none, none, none, none, none⟩
    "b" [3] [4] [5] 0
    ⟨some [1], some [2], none, none,
     some (.fernetTok [64, 1, 2, 100000, 32] 0
       (.tarball [("manifest.json", "m")])),
     some (testPrims.sha256hex (.fernetTok [64, 1, 2, 100000, 32] 0
       (.tarball [("manifest.json", "m")])) ++ "  " ++ "b.tar.gz.enc" ++ "\n"),
     some "m", none⟩
    "b.tar.gz.enc"
    (testPrims.sha256hex (.fernetTok [64, 1, 2, 100000, 32] 0
       (.tarball [("manifest.json", "m")])))
    [BEvent.writeTar, BEvent.writeEnc, BEvent.writeChecksum,
     BEvent.copyManifest, BEvent.unlinkTar, BEvent.rmtreeBackupDir]
    (by rfl)
  exact h.1

/-- C4: for any backup directory and fixed key material, the checksum
file written by `encrypt_backup` records exactly the SHA-256 of the
ciphertext artifact, and `decrypt_backup` run on the resulting state with
the same key material succeeds and reproduces the pre-backup directory
contents exactly. -/
theorem c4_backup_roundtrip (prims : CryptoPrims) (fs : BackupFS)
    (dirName : String) (p s : Bytes) (dir : BDir)
    (rp rs rt rp' rs' rt' : Bytes) (nonce : Nat) (encPath : FPath)
    (fs1 : BackupFS) (encName digest : String) (tr : List BEvent)
    (ct : FData)
    (h1 : fs.keyFile = some p) (h2 : fs.saltFile = some s)
    (h3 : fs.backupDir = some dir)
    (henc : encrypt_backup prims fs dirName rp rs rt nonce
        = some (fs1, encName, digest, tr))
    (hct : fs1.encFile = some ct) :
    digest = prims.sha256hex ct
    ∧ fs1.checksumFile = some (prims.sha256hex ct ++ "  " ++ encName ++ "\n")
    ∧ (decrypt_backup prims fs1 encPath rp' rs' rt').1.extracted = some dir
    ∧ (decrypt_backup prims fs1 encPath rp' rs' rt').2
        = Except.ok (⟨encPath.parent, encPath.name.replace ".tar.gz.enc" ""⟩,
            tarballPathOf encPath,
            [DEvent.writeTarball, DEvent.extractAll, DEvent.unlinkTarball]) := by
  simp only [encrypt_backup, h3,
    get_or_create_key_both prims ⟨fs.keyFile, fs.saltFile⟩ p s rp rs rt h1 h2]
    at henc
  rcases hm : dirLookup dir "manifest.json" with _ | m <;>
    rw [hm] at henc <;>
    simp only [Option.some.injEq, Prod.mk.injEq] at henc <;>
    obtain ⟨hfs1, hen, hd, htr⟩ := henc <;>
    subst hen hd <;>
    cases hfs1.symm <;>
    rw [show ct = fernetEncrypt
          (prims.urlsafeB64 (prims.pbkdf2Sha256 p s 100000 32)) nonce
          (FData.tarball dir) from (Option.some.injEq _ _ ▸ hct).symm] <;>
    exact ⟨rfl, rfl,
      by simp [decrypt_backup,
        get_or_create_key_both prims ⟨fs.keyFile, fs.saltFile⟩ p s rp' rs' rt'
          h1 h2, fernetEncrypt, fernetDecrypt],
      by simp [decrypt_backup,
        get_or_create_key_both prims ⟨fs.keyFile, fs.saltFile⟩ p s rp' rs' rt'
          h1 h2, fernetEncrypt, fernetDecrypt]⟩

/-- Concrete backup directory for evaluating the roundtrip. -/
def c4dir : BDir := [("manifest.json", "m")]

/-- The key derived from the concrete key files `[1]` / `[2]` under
`testPrims`. -/
def c4key : Bytes := testPrims.urlsafeB64 (testPrims.pbkdf2Sha256 [1] [2] 100000 32)

/-- The ciphertext artifact of the concrete backup run. -/
def c4ct : FData := fernetEncrypt c4key 0 (.tarball c4dir)

/-- The concrete pre-backup filesystem. -/
def c4fs : BackupFS := ⟨some [1], some [2], some c4dir, none, none, none, none, none⟩

/-- The concrete filesystem left by `encrypt_backup` on `c4fs`. -/
def c4fs1 : BackupFS :=
  ⟨some [1], some [2], none, none, some c4ct,
   some (testPrims.sha256hex c4ct ++ "  " ++ "b.tar.gz.enc" ++ "\n"),
   some "m", none⟩

/-- C4 witness: the roundtrip theorem at a concrete one-file backup
directory. -/
theorem c4_backup_roundtrip_witness :
    testPrims.sha256hex c4ct = testPrims.sha256hex c4ct
    ∧ c4fs1.checksumFile
        = some (testPrims.sha256hex c4ct ++ "  " ++ "b.tar.gz.enc" ++ "\n")
    ∧ (decrypt_backup testPrims c4fs1 ⟨"/backups", "b.tar.gz.enc"⟩
        [9] [9] [9]).1.extracted = some c4dir
    ∧ (decrypt_backup testPrims c4fs1 ⟨"/backups", "b.tar.gz.enc"⟩
        [9] [9] [9]).2
      = Except.ok
          (⟨"/backups", ("b.tar.gz.enc").replace ".tar.gz.enc" ""⟩,
           tarballPathOf ⟨"/backups", "b.tar.gz.enc"⟩,
           [DEvent.writeTarball, DEvent.extractAll, DEvent.unlinkTarball]) :=
  c4_backup_roundtrip testPrims c4fs "b" [1] [2] c4dir [3] [4] [5]
    [9] [9] [9] 0 ⟨"/backups", "b.tar.gz.enc"⟩ c4fs1 "b.tar.gz.enc"
    (testPrims.sha256hex c4ct)
    [BEvent.writeTar, BEvent.writeEnc, BEvent.writeChecksum,
     BEvent.copyManifest, BEvent.unlinkTar, BEvent.rmtreeBackupDir]
    c4ct rfl rfl rfl (by rfl) rfl

/-- Whether a stored optional field value is already in the encrypted
state. -/
def is_encrypted_opt : Option FieldVal → Bool
  | some w => is_encrypted w
  | none => false

lemma migrateDoc_fix (n m : Nat) (v : Option FieldVal) :
    migrateDoc m (migrateDoc n v).1 = ((migrateDoc n v).1, false) := by
  rcases v with _ | w
  · rfl
  · cases w with
    | vnull => rfl
    | vstr s =>
        by_cases hs : s = ""
        · subst hs; rfl
        · simp [migrateDoc, needsWork, truthy, hs, encrypt_field,
            decrypt_field]
    | venc k p => rfl

lemma migrate_field_idem (docs : List (Option FieldVal)) :
    ∀ rng rng2 : Nat → Nat,
      migrate_field rng2 (migrate_field rng docs).1
        = ((migrate_field rng docs).1, 0) := by
  induction docs with
  | nil => intro rng rng2; rfl
  | cons v vs ih =>
      intro rng rng2
      simp only [migrate_field, migrateDoc_fix (rng 0) (rng2 0) v,
        ih (fun i => rng (i + 1)) (fun i => rng2 (i + 1))]
      simp

lemma migrate_field_getElem (docs : List (Option FieldVal)) :
    ∀ (rng : Nat → Nat) (i : Nat),
      (migrate_field rng docs).1[i]?
        = (docs[i]?).map (fun v => (migrateDoc (rng i) v).1) := by
  induction docs with
  | nil => intro rng i; simp [migrate_field]
  | cons v vs ih =>
      intro rng i
      cases i with
      | zero => simp [migrate_field]
      | succ n =>
          simp only [migrate_field, List.getElem?_cons_succ]
          exact ih (fun j => rng (j + 1)) n

lemma hashFieldStep_fix (hmac : String → String → String) (f : String)
    (v : Option FieldVal) (h : Option String) :
    hashFieldStep hmac f v (hashFieldStep hmac f v h).1
      = ((hashFieldStep hmac f v h).1, false) := by
  rcases v with _ | w
  · simp [hashFieldStep]
  · rcases h with _ | x
    · by_cases ht : truthy w
      · by_cases hg : generate_search_hash hmac f (plainOf w) = ""
        · simp [hashFieldStep, ht, hg]
        · simp [hashFieldStep, ht, hg]
      · simp [hashFieldStep, ht]
    · simp [hashFieldStep]

lemma hashPass_map (body : HDoc → HDoc × Bool) (docs : List HDoc) :
    (hashPass body docs).1 = docs.map (fun d => (body d).1) := by
  induction docs with
  | nil => rfl
  | cons d ds ih => simp [hashPass, ih]

lemma hashPass_noop (body : HDoc → HDoc × Bool) (docs : List HDoc)
    (h : ∀ d ∈ docs, body d = (d, false)) : hashPass body docs = (docs, 0) := by
  induction docs with
  | nil => rfl
  | cons d ds ih =>
      simp only [hashPass, h d (List.mem_cons_self d ds),
        ih (fun e he => h e (List.mem_cons_of_mem d he))]
      simp

lemma hashDoc_two_pass_fixed (hmac : String → String → String) (d : HDoc) :
    hashDocNhs hmac (hashDocMrn hmac (hashDocNhs hmac d).1).1
      = ((hashDocMrn hmac (hashDocNhs hmac d).1).1, false)
    ∧ hashDocMrn hmac (hashDocMrn hmac (hashDocNhs hmac d).1).1
      = ((hashDocMrn hmac (hashDocNhs hmac d).1).1, false) := by
  cases d with
  | mk nv nh mv mh =>
      constructor <;> simp [hashDocNhs, hashDocMrn, hashFieldStep_fix]

/-- C5: the migrations are idempotent and interruption-safe.  (1) A
second `migrate_field` run over the output of a complete first run
performs zero new encryptions and leaves the collection unchanged.
(2) A second `migrate_patient_hashes` run over the output of a complete
first run adds zero NHS-number hashes and zero MRN hashes and leaves the
collection unchanged.  (3) From any intermediate state reachable by
interrupting the first `migrate_field` run after `k` documents, every
document already in the encrypted state is excluded by the "needs work"
selection query and is left unchanged (not re-encrypted) by the resumed
run. -/
theorem c5_migration_idempotent (rng rng2 rng3 : Nat → Nat)
    (hmac : String → String → String) (docs : List (Option FieldVal))
    (hdocs : List HDoc) (k : Nat) :
    migrate_field rng2 (migrate_field rng docs).1
        = ((migrate_field rng docs).1, 0)
    ∧ migrate_patient_hashes hmac (migrate_patient_hashes hmac hdocs).1
        = ((migrate_patient_hashes hmac hdocs).1, 0, 0)
    ∧ (∀ (i : Nat) (v : Option FieldVal),
        (interruptedRun rng docs k)[i]? = some v →
        is_encrypted_opt v = true →
        needsWork v = false
        ∧ (migrate_field rng3 (interruptedRun rng docs k)).1[i]? = some v) := by
  refine ⟨migrate_field_idem docs rng rng2, ?_, ?_⟩
  · have hmem : ∀ d2 ∈ (migrate_patient_hashes hmac hdocs).1,
        hashDocNhs hmac d2 = (d2, false) ∧ hashDocMrn hmac d2 = (d2, false) := by
      intro d2 hd2
      simp only [migrate_patient_hashes, hashPass_map, List.map_map,
        List.mem_map] at hd2
      obtain ⟨d, -, rfl⟩ := hd2
      exact hashDoc_two_pass_fixed hmac d
    have h1 : hashPass (hashDocNhs hmac) (migrate_patient_hashes hmac hdocs).1
        = ((migrate_patient_hashes hmac hdocs).1, 0) :=
      hashPass_noop _ _ (fun d hd => (hmem d hd).1)
    have h2 : hashPass (hashDocMrn hmac) (migrate_patient_hashes hmac hdocs).1
        = ((migrate_patient_hashes hmac hdocs).1, 0) :=
      hashPass_noop _ _ (fun d hd => (hmem d hd).2)
    show ((hashPass (hashDocMrn hmac)
        (hashPass (hashDocNhs hmac) (migrate_patient_hashes hmac hdocs).1).1).1,
      (hashPass (hashDocNhs hmac) (migrate_patient_hashes hmac hdocs).1).2,
      (hashPass (hashDocMrn hmac)
        (hashPass (hashDocNhs hmac) (migrate_patient_hashes hmac hdocs).1).1).2)
      = ((migrate_patient_hashes hmac hdocs).1, 0, 0)
    rw [h1]
    simp [h2]
  · intro i v hiv henc
    have hnw : needsWork v = false := by
      rcases v with _ | w
      · rfl
      · cases w with
        | vnull => exact absurd henc (by simp [is_encrypted_opt, is_encrypted])
        | vstr s => exact absurd henc (by simp [is_encrypted_opt, is_encrypted])
        | venc n p => rfl
    refine ⟨hnw, ?_⟩
    rw [migrate_field_getElem _ rng3 i, hiv]
    simp [migrateDoc, hnw]

/-- C5 witness: idempotence and interruption-safety at a concrete
four-document collection (one plaintext identifier, one null, one absent,
one empty string) and a concrete patient-hash collection. -/
theorem c5_migration_idempotent_witness :
    migrate_field (fun i => i)
        (migrate_field (fun i => i)
          [some (.vstr "9434765919"), some .vnull, none, some (.vstr "")]).1
      = ((migrate_field (fun i => i)
          [some (.vstr "9434765919"), some .vnull, none, some (.vstr "")]).1, 0)
    ∧ migrate_patient_hashes (fun f s => f ++ s)
        (migrate_patient_hashes (fun f s => f ++ s)
          [⟨some (.vstr "9434765919"), none, some (.venc 5 "IW123456"), none⟩]).1
      = ((migrate_patient_hashes (fun f s => f ++ s)
          [⟨some (.vstr "9434765919"), none, some (.venc 5 "IW123456"), none⟩]).1,
         0, 0)
    ∧ needsWork (some (.venc 0 "9434765919")) = false
    ∧ (migrate_field (fun i => i)
        (interruptedRun (fun i => i)
          [some (.vstr "9434765919"), some .vnull, none, some (.vstr "")] 1)).1[0]?
      = some (some (.venc 0 "9434765919")) := by
  have h := c5_migration_idempotent (fun i => i) (fun i => i) (fun i => i)
    (fun f s => f ++ s)
    [some (.vstr "9434765919"), some .vnull, none, some (.vstr "")]
    [⟨some (.vstr "9434765919"), none, some (.venc 5 "IW123456"), none⟩] 1
  have h3 := h.2.2 0 (some (.venc 0 "9434765919")) (by rfl) (by rfl)
  exact ⟨h.1, h.2.1, h3.1, h3.2⟩

lemma count_patients_encsearch_spec (clean : String)
    (patients : List RPatient) :
    (count_patients_encsearch clean patients).2 = patients
    ∧ (count_patients_encsearch clean patients).1
        = patients.countP (patientMatches clean) := by
  induction patients with
  | nil => exact ⟨rfl, rfl⟩
  | cons p ps ih =>
      refine ⟨?_, ?_⟩
      · simp [count_patients_encsearch, ih.1]
      · simp only [count_patients_encsearch, ih.2, List.countP_cons]
        omega

/-- C2 counterexample: with two stored records whose identifiers are
encrypted, a search for the literal identifier "9434765919" (which takes
the encrypted-field branch, `is_mrn_pattern`) matches exactly one record
but passes *both* stored records to `decrypt_document` — the lookup
decrypts a record other than the match and consults no hash field. -/
theorem c2_counterexample :
    is_mrn_pattern (clean_upper "9434765919") = true
    ∧ (count_patients_encsearch (clean_lower "9434765919")
        [⟨some (.venc 7 "9434765919"), none⟩,
         ⟨some (.venc 8 "1234567890"), some (.venc 9 "9998887776")⟩]).1 = 1
    ∧ (count_patients_encsearch (clean_lower "9434765919")
        [⟨some (.venc 7 "9434765919"), none⟩,
         ⟨some (.venc 8 "1234567890"), some (.venc 9 "9998887776")⟩]).2
      = [⟨some (.venc 7 "9434765919"), none⟩,
         ⟨some (.venc 8 "1234567890"), some (.venc 9 "9998887776")⟩]
    ∧ patientMatches (clean_lower "9434765919")
        ⟨some (.venc 8 "1234567890"), some (.venc 9 "9998887776")⟩
      = false := by
  refine ⟨by decide, by decide, by decide, by decide⟩

/-- C2 (amended): for every search term matching the MRN/NHS-number
pattern, the encrypted-field branch of `count_patients` passes every
stored record of the collection to `decrypt_document` and counts exactly
the records whose decrypted MRN or NHS number contains the cleaned search
string (so a stored identifier is located — the count is positive when
some record matches); the encrypted-field branch of `list_patients`
likewise decrypts every stored record before filtering.  No keyed hash
field is consulted. -/
theorem c2_encrypted_search_decrypts_all (search : String)
    (patients : List RPatient) (skip limit : Nat)
    (_hpat : is_mrn_pattern (clean_upper search) = true) :
    (count_patients_encsearch (clean_lower search) patients).2 = patients
    ∧ (count_patients_encsearch (clean_lower search) patients).1
        = patients.countP (patientMatches (clean_lower search))
    ∧ (∀ p ∈ patients, patientMatches (clean_lower search) p = true →
        1 ≤ (count_patients_encsearch (clean_lower search) patients).1)
    ∧ (list_patients_encsearch (clean_lower search) skip limit patients).2
        = patients.map decrypt_document := by
  refine ⟨(count_patients_encsearch_spec _ _).1,
          (count_patients_encsearch_spec _ _).2, ?_, rfl⟩
  intro p hp hmatch
  rw [(count_patients_encsearch_spec (clean_lower search) patients).2]
  have : 0 < patients.countP (patientMatches (clean_lower search)) :=
    List.countP_pos_iff.mpr ⟨p, hp, hmatch⟩
  omega

/-- C2 witness: the amended theorem at the two-record collection of the
counterexample. -/
theorem c2_encrypted_search_decrypts_all_witness :
    (count_patients_encsearch (clean_lower "9434765919")
        [⟨some (.venc 7 "9434765919"), none⟩,
         ⟨some (.venc 8 "1234567890"), some (.venc 9 "9998887776")⟩]).2
      = [⟨some (.venc 7 "9434765919"), none⟩,
         ⟨some (.venc 8 "1234567890"), some (.venc 9 "9998887776")⟩]
    ∧ 1 ≤ (count_patients_encsearch (clean_lower "9434765919")
        [⟨some (.venc 7 "9434765919"), none⟩,
         ⟨some (.venc 8 "1234567890"), some (.venc 9 "9998887776")⟩]).1
    ∧ (list_patients_encsearch (clean_lower "9434765919") 0 100
        [⟨some (.venc 7 "9434765919"), none⟩,
         ⟨some (.venc 8 "1234567890"), some (.venc 9 "9998887776")⟩]).2
      = ([⟨some (.venc 7 "9434765919"), none⟩,
          ⟨some (.venc 8 "1234567890"), some (.venc 9 "9998887776")⟩].map
           decrypt_document) := by
  have h := c2_encrypted_search_decrypts_all "9434765919"
    [⟨some (.venc 7 "9434765919"), none⟩,
     ⟨some (.venc 8 "1234567890"), some (.venc 9 "9998887776")⟩]
    0 100 (by decide)
  exact ⟨h.1,
    h.2.2.1 ⟨some (.venc 7 "9434765919"), none⟩ (by simp) (by decide),
    h.2.2.2⟩

lemma mongoGet_cons (x : String × MongoVal) (l : MDoc) (f : String) :
    mongoGet (x :: l) f = if x.1 = f then some x.2 else mongoGet l f := by
  by_cases h : x.1 = f <;> simp [mongoGet, List.find?_cons, h]

lemma mongoGet_fieldUpdates (fields : List String) :
    ∀ (rng : Nat → Nat) (doc : MDoc) (f : String) (v : MongoVal),
      f ∈ fields → mongoGet doc f = some v → v ≠ .mnull →
      is_encrypted_mv v = false →
      ∃ n, mongoGet (fieldUpdates rng doc fields) f
            = some (.menc n (pyStr v)) := by
  induction fields with
  | nil => intro rng doc f v hf; exact absurd hf (List.not_mem_nil f)
  | cons g gs ih =>
      intro rng doc f v hf hget hnn hne
      by_cases hfg : f = g
      · subst hfg
        refine ⟨rng 0, ?_⟩
        simp [fieldUpdates, hget, hnn, hne, mongoGet_cons, encrypt_field_mv]
      · have hf' : f ∈ gs := by
          rcases List.mem_cons.mp hf with h | h
          · exact absurd h hfg
          · exact h
        obtain ⟨n, hn⟩ := ih (fun i => rng (i + 1)) doc f v hf' hget hnn hne
        rcases hg : mongoGet doc g with _ | w
        · exact ⟨n, by simpa [fieldUpdates, hg] using hn⟩
        · by_cases hc : w ≠ .mnull ∧ is_encrypted_mv w = false
          · refine ⟨n, ?_⟩
            simp only [fieldUpdates, hg]
            rw [if_pos hc, mongoGet_cons]
            rw [if_neg (show ¬(g = f) from fun h => hfg h.symm)]
            exact hn
          · exact ⟨n, by simpa [fieldUpdates, hg, hc] using hn⟩

lemma mongoGet_applySet (doc : MDoc) (updates : MDoc) (f : String)
    (w : MongoVal) (hu : mongoGet updates f = some w)
    (hd : (mongoGet doc f).isSome = true) :
    mongoGet (applySet doc updates) f = some w := by
  induction doc with
  | nil => simp [mongoGet] at hd
  | cons kv rest ih =>
      by_cases hk : kv.1 = f
      · simp only [applySet, List.map_cons, hk, hu]
        rw [mongoGet_cons]
        simp [hk]
      · have hd' : (mongoGet rest f).isSome = true := by
          rw [mongoGet_cons, if_neg hk] at hd
          exact hd
        have := ih hd'
        simp only [applySet, List.map_cons] at this ⊢
        rcases hkv : mongoGet updates kv.1 with _ | u <;>
          simp only [hkv] <;> rw [mongoGet_cons] <;> simp [hk] <;> exact this

/-- C10: every non-null, not-already-encrypted sensitive value processed
by `encrypt_patient_fields` — top-level or demographics — is converted
with `str()` before being encrypted: after migration the field holds a
marker-bearing ciphertext whose decryption is `str(value)`; for a value
stored as a date, the decrypted result is the string rendering, not a
value of the original type. -/
theorem c10_values_stringified (rng rngDemo : Nat → Nat) (p : PDoc)
    (f : String) (v : MongoVal)
    (hf : f ∈ patient_encrypted_fields)
    (hget : mongoGet p.top f = some v)
    (hnn : v ≠ .mnull)
    (hne : is_encrypted_mv v = false) :
    Option.any (fun w => is_encrypted_mv w && (decrypt_field_mv w == pyStr v))
        (mongoGet (encrypt_patient_fields_doc rng rngDemo p).top f) = true
    ∧ (∀ (n y m d : Nat), v = .mdate y m d →
        MongoVal.mstr (decrypt_field_mv (encrypt_field_mv n (pyStr v))) ≠ v)
    ∧ (∀ (demo : MDoc) (g : String) (u : MongoVal),
        p.demographics = some demo → demo ≠ [] →
        g ∈ demographics_encrypted_fields → mongoGet demo g = some u →
        u ≠ .mnull → is_encrypted_mv u = false →
        (encrypt_patient_fields_doc rng rngDemo p).demographics
            = some (applySet demo
                (fieldUpdates rngDemo demo demographics_encrypted_fields))
        ∧ Option.any
            (fun w => is_encrypted_mv w && (decrypt_field_mv w == pyStr u))
            (mongoGet (applySet demo
              (fieldUpdates rngDemo demo demographics_encrypted_fields)) g)
          = true) := by
  obtain ⟨n, hn⟩ :=
    mongoGet_fieldUpdates patient_encrypted_fields rng p.top f v hf hget hnn hne
  refine ⟨?_, ?_, ?_⟩
  · have happ := mongoGet_applySet p.top
      (fieldUpdates rng p.top patient_encrypted_fields) f _ hn
      (by rw [hget]; rfl)
    simp only [encrypt_patient_fields_doc]
    rw [happ]
    simp [Option.any, is_encrypted_mv, decrypt_field_mv, encrypt_field_mv]
  · intro n' y m d hv
    subst hv
    simp [encrypt_field_mv, decrypt_field_mv]
  · intro demo g u hdemo hne' hg hgetu hnnu hneu
    obtain ⟨k, hk⟩ := mongoGet_fieldUpdates demographics_encrypted_fields
      rngDemo demo g u hg hgetu hnnu hneu
    have happ := mongoGet_applySet demo
      (fieldUpdates rngDemo demo demographics_encrypted_fields) g _ hk
      (by rw [hgetu]; rfl)
    constructor
    · simp [encrypt_patient_fields_doc, hdemo, hne']
    · rw [happ]
      simp [Option.any, is_encrypted_mv, decrypt_field_mv, encrypt_field_mv]

/-- Concrete demographics sub-document with a date-valued field. -/
def c10demo : MDoc := [("date_of_birth", .mdate 1990 1 2), ("postcode", .mstr "PO31")]

/-- Concrete patient document with a date-valued `nhs_number`. -/
def c10p : PDoc := ⟨[("mrn", .mstr "IW123456"), ("nhs_number", .mdate 1990 1 2)], some c10demo⟩

/-- C10 witness: the stringification theorem at a concrete record whose
`nhs_number` and `date_of_birth` are stored as dates. -/
theorem c10_values_stringified_witness :
    Option.any
        (fun w => is_encrypted_mv w
          && (decrypt_field_mv w == pyStr (.mdate 1990 1 2)))
        (mongoGet (encrypt_patient_fields_doc (fun i => i) (fun i => i)
          c10p).top "nhs_number") = true
    ∧ MongoVal.mstr
        (decrypt_field_mv (encrypt_field_mv 3 (pyStr (.mdate 1990 1 2))))
      ≠ MongoVal.mdate 1990 1 2
    ∧ (encrypt_patient_fields_doc (fun i => i) (fun i => i) c10p).demographics
      = some (applySet c10demo
          (fieldUpdates (fun i => i) c10demo demographics_encrypted_fields))
    ∧ Option.any
        (fun w => is_encrypted_mv w
          && (decrypt_field_mv w == pyStr (.mdate 1990 1 2)))
        (mongoGet (applySet c10demo
          (fieldUpdates (fun i => i) c10demo demographics_encrypted_fields))
          "date_of_birth") = true := by
  have h := c10_values_stringified (fun i => i) (fun i => i) c10p
    "nhs_number" (.mdate 1990 1 2) (by decide) (by decide) (by decide) rfl
  have h3 := h.2.2 c10demo "date_of_birth" (.mdate 1990 1 2) rfl (by decide)
    (by decide) (by decide) (by decide) rfl
  exact ⟨h.1, h.2.1 3 1990 1 2 rfl, h3.1, h3.2⟩
